import Mathlib

/-!
Verification of the recipe-management backend specification against the
repository sources. The repository ships its test suites and the schema
migration creating the Tag table; the runtime modules (models, serializers,
views, calc) are not present, so their behavior is modelled from the
specification document, as noted on each definition. The migration file
src/app/core/migrations/0004_auto_20230505_0111.py is transcribed directly.
-/

namespace RecipeApp

/-! ## Schema declarations transcribed from the migration -/

/-- Deletion policies a foreign key column may declare. -/
inductive OnDelete where
  | cascade
  | protect
  | setNull
  | restrict
  | doNothing
deriving DecidableEq

/-- A column declaration of a relational model, as written in a migration. -/
structure FieldDecl where
  fname : String
  ftype : String
  maxLength : Option Nat
  onDelete : Option OnDelete
  toModel : Option String
deriving DecidableEq

/-- A model declaration: its columns and any declared multi-column
uniqueness constraints. -/
structure ModelDecl where
  mname : String
  fields : List FieldDecl
  uniqueTogether : List (List String)
deriving DecidableEq

/-- Transcribed from src/app/core/migrations/0004_auto_20230505_0111.py:
the CreateModel operation for Tag declares exactly three columns
(id BigAutoField primary key, name CharField max_length 256, user
ForeignKey on_delete CASCADE to the user model) and no options, hence no
unique_together and no UniqueConstraint. -/
def tagModel : ModelDecl :=
  { mname := "Tag"
  , fields :=
      [ { fname := "id", ftype := "BigAutoField", maxLength := none
        , onDelete := none, toModel := none }
      , { fname := "name", ftype := "CharField", maxLength := some 256
        , onDelete := none, toModel := none }
      , { fname := "user", ftype := "ForeignKey", maxLength := none
        , onDelete := some OnDelete.cascade, toModel := some "AUTH_USER_MODEL" } ]
  , uniqueTogether := [] }

/-- Transcribed from the same migration: the AddField operation attaching a
many-to-many tags column to the recipe model, targeting core.Tag. -/
def recipeTagsFieldDecl : FieldDecl :=
  { fname := "tags", ftype := "ManyToManyField", maxLength := none
  , onDelete := none, toModel := some "core.Tag" }

/-- Whether a model declaration carries a uniqueness constraint covering the
two given columns. -/
def declaresUniquePair (m : ModelDecl) (a b : String) : Prop :=
  ∃ cols ∈ m.uniqueTogether, a ∈ cols ∧ b ∈ cols

instance (m : ModelDecl) (a b : String) : Decidable (declaresUniquePair m a b) := by
  unfold declaresUniquePair
  infer_instance

/-- The deletion policy the Tag model declares on its user foreign key. -/
def tagUserOnDelete : Option OnDelete :=
  (tagModel.fields.find? (fun f => f.fname == "user")).bind (fun f => f.onDelete)

/-! ## The calc module

Modelled from the spec: the calc module itself is absent from src, and the
spec does not describe it; its behavior is fixed by the assertions of its
test suite in src/app/app/tests.py, which require add 5 6 = 11 and
subtract 5 10 = 5, i.e. subtract returns its second argument minus its
first. -/

namespace Calc

/-- Modelled from the spec: addition as asserted by CalcTests. -/
def add (a b : Int) : Int := a + b

/-- Modelled from the spec: subtraction as asserted by CalcTests, which
require subtract 5 10 = 5, so the first argument is subtracted from the
second. -/
def subtract (a b : Int) : Int := b - a

end Calc

/-! ## Users: email normalization and the user factory -/

/-- A user account: normalized email identifier, stored credential
(the hashing scheme is out of scope per the spec non-goals, so the
credential is modelled as an opaque stored value), and the two flags. -/
structure User where
  email : String
  password : String
  isStaff : Bool
  isSuperuser : Bool
deriving DecidableEq

/-- Split a character list at its last at-sign: returns the part before it
and the part after it, or none when no at-sign occurs. -/
def rsplitAtSign : List Char → Option (List Char × List Char)
  | [] => none
  | c :: rest =>
    match rsplitAtSign rest with
    | some (l, d) => some (c :: l, d)
    | none => if c = '@' then some ([], rest) else none

/-- Modelled from the spec: email normalization of the user factory (the
factory module is not under src). The spec states the local part is
preserved and the domain part is lower-cased; the split is at the last
at-sign, and an address without an at-sign is left unchanged. -/
def normalizeEmail (email : String) : String :=
  match rsplitAtSign email.data with
  | some (l, d) => String.mk (l ++ '@' :: d.map Char.toLower)
  | none => email

/-- Modelled from the spec: the user factory (not under src) rejects an
empty identifier with an error and otherwise stores the normalized email,
the credential, and both flags false. -/
def createUser (email pw : String) : Except String User :=
  if email = "" then Except.error "ValueError"
  else Except.ok
    { email := normalizeEmail email, password := pw
    , isStaff := false, isSuperuser := false }

/-- Modelled from the spec: the superuser path of the user factory (not
under src) performs normal user creation and sets both flags true. -/
def createSuperuser (email pw : String) : Except String User :=
  match createUser email pw with
  | Except.error e => Except.error e
  | Except.ok u => Except.ok { u with isStaff := true, isSuperuser := true }

/-- Modelled from the spec: credential verification compares the supplied
credential against the stored opaque value. -/
def checkPassword (u : User) (pw : String) : Bool :=
  u.password == pw

/-! ## Relational state

The labeled-entity repository is generic over Tag and Ingredient per the
spec; it is modelled once, on Tag (Ingredient has the same shape,
invariants and an independent namespace). -/

/-- A Tag row: surrogate id, owning user id, name. Per the migration the
columns are id, user, name. -/
structure Tag where
  id : Nat
  user : Nat
  name : String
deriving DecidableEq

/-- A Recipe row together with its many-to-many tag association (the set of
associated Tag ids). Scalar columns follow the spec data model. -/
structure Recipe where
  id : Nat
  user : Nat
  title : String
  timeMinutes : Nat
  price : Int
  description : String
  link : String
  tagIds : List Nat
deriving DecidableEq

/-- The persisted state: user ids, the Tag table, the Recipe table with
associations, and the autoincrement counters. -/
structure DB where
  users : List Nat
  tags : List Tag
  recipes : List Recipe
  nextTagId : Nat
  nextRecipeId : Nat
deriving DecidableEq

/-- The empty initial state. -/
def emptyDB : DB :=
  { users := [], tags := [], recipes := [], nextTagId := 0, nextRecipeId := 0 }

/-- Error taxonomy of the spec: validation failures map to 400, missing or
cross-owner resources to 404, and a distinct forbidden outcome exists in
the taxonomy of the transport but is never produced by owner-scoped
lookups. -/
inductive ApiError where
  | validationError
  | notFound
  | forbidden
  | authRequired
deriving DecidableEq

/-- Look up a tag of the given owner with the given name. -/
def findTag (db : DB) (owner : Nat) (name : String) : Option Tag :=
  db.tags.find? (fun t => t.user == owner && t.name == name)

/-- Whether the owner already has a tag of that name. -/
def hasTag (db : DB) (owner : Nat) (name : String) : Bool :=
  (findTag db owner name).isSome

/-- Number of tag rows with the given owner and name. -/
def keyCount (db : DB) (owner : Nat) (name : String) : Nat :=
  (db.tags.filter (fun t => t.user == owner && t.name == name)).length

/-- Number of tag rows owned by the given owner. -/
def tagCount (db : DB) (owner : Nat) : Nat :=
  (db.tags.filter (fun t => t.user == owner)).length

/-- Name validity bound from the spec and the migration: non-empty and at
most 256 characters. -/
def validName (name : String) : Bool :=
  name.length != 0 && name.length ≤ 256

/-- Modelled from the spec: the labeled-entity repository operation
resolveOrCreate (the serializer module implementing it is not under src).
It validates the name, looks up an existing entity with the given owner and
name and returns it unchanged if found, and otherwise inserts a fresh
entity with the next surrogate id. -/
def resolveOrCreate (db : DB) (owner : Nat) (name : String) :
    Except ApiError (Tag × DB) :=
  if validName name then
    match findTag db owner name with
    | some t => Except.ok (t, db)
    | none =>
      let t : Tag := { id := db.nextTagId, user := owner, name := name }
      Except.ok (t, { db with tags := db.tags ++ [t], nextTagId := db.nextTagId + 1 })
  else Except.error ApiError.validationError

/-- Modelled from the spec: resolve a whole nested list of names in order,
threading the state, collecting the resolved ids. -/
def resolveAll (owner : Nat) : DB → List String → Except ApiError (List Nat × DB)
  | db, [] => Except.ok ([], db)
  | db, n :: rest =>
    match resolveOrCreate db owner n with
    | Except.error e => Except.error e
    | Except.ok (t, db1) =>
      match resolveAll owner db1 rest with
      | Except.error e => Except.error e
      | Except.ok (ids, db2) => Except.ok (t.id :: ids, db2)

/-! ## Recipe aggregate operations -/

/-- A creation payload: required scalars, optional description and link,
and an optional nested list of tag names (absent key modelled as none). -/
structure RecipePayload where
  title : String
  timeMinutes : Nat
  price : Int
  description : Option String
  link : Option String
  tags : Option (List String)
deriving DecidableEq

/-- A merge-update payload: every field optional, where none means the key
is absent from the payload. The userField component models a caller
supplied owner key, which the update surface ignores. A present tags key
with an empty list is some of the empty list, distinct from none. -/
structure PatchPayload where
  title : Option String
  timeMinutes : Option Nat
  price : Option Int
  description : Option String
  link : Option String
  userField : Option Nat
  tags : Option (List String)
deriving DecidableEq

/-- Owner-scoped lookup: the recipe with the given id among the rows owned
by the caller; finding nothing is indistinguishable from the id not
existing. -/
def findOwnedRecipe (db : DB) (caller : Nat) (rid : Nat) : Option Recipe :=
  db.recipes.find? (fun r => r.user == caller && r.id == rid)

/-- The recipe row with the given id, regardless of owner. -/
def recipeById (db : DB) (rid : Nat) : Option Recipe :=
  db.recipes.find? (fun r => r.id == rid)

/-- Modelled from the spec: recipe creation (the serializer and view
modules are not under src). The owner is taken from the authenticated
caller, never from the payload; required scalars are validated; nested tag
names are resolved through the labeled-entity repository and the resolved
ids become the association set. -/
def createRecipe (db : DB) (owner : Nat) (p : RecipePayload) :
    Except ApiError (Recipe × DB) :=
  if p.title == "" then Except.error ApiError.validationError
  else
    match resolveAll owner db (p.tags.getD []) with
    | Except.error e => Except.error e
    | Except.ok (ids, db1) =>
      let r : Recipe :=
        { id := db1.nextRecipeId, user := owner, title := p.title
        , timeMinutes := p.timeMinutes, price := p.price
        , description := p.description.getD "", link := p.link.getD ""
        , tagIds := ids }
      Except.ok (r, { db1 with recipes := db1.recipes ++ [r]
                             , nextRecipeId := db1.nextRecipeId + 1 })

/-- Write back an updated row for the recipe with the given id. -/
def storeRecipe (db : DB) (r1 : Recipe) : DB :=
  { db with recipes := db.recipes.map (fun x => if x.id == r1.id then r1 else x) }

/-- Merge the scalar fields of a patch payload into a recipe row, leaving
id and owner untouched (the userField key of the payload is ignored), and
install the given association set. -/
def mergeScalars (r : Recipe) (p : PatchPayload) (ids : List Nat) : Recipe :=
  { r with title := p.title.getD r.title
         , timeMinutes := p.timeMinutes.getD r.timeMinutes
         , price := p.price.getD r.price
         , description := p.description.getD r.description
         , link := p.link.getD r.link
         , tagIds := ids }

/-- Modelled from the spec: merge (partial mode) update. The lookup is
owner-scoped and yields notFound when it finds nothing; an absent tags key
leaves the association set untouched; a present tags key replaces the
association set with exactly the resolved ids (a present empty list
resolves to the empty set, clearing the associations); the stored owner is
never changed. An error commits nothing. -/
def patchRecipe (db : DB) (caller : Nat) (rid : Nat) (p : PatchPayload) :
    Except ApiError (Recipe × DB) :=
  match findOwnedRecipe db caller rid with
  | none => Except.error ApiError.notFound
  | some r =>
    match p.tags with
    | none =>
      let r1 := mergeScalars r p r.tagIds
      Except.ok (r1, storeRecipe db r1)
    | some names =>
      match resolveAll caller db names with
      | Except.error e => Except.error e
      | Except.ok (ids, db1) =>
        let r1 := mergeScalars r p ids
        Except.ok (r1, storeRecipe db1 r1)

/-- Modelled from the spec: owner-scoped detail read; a pure read. -/
def getRecipeDetail (db : DB) (caller : Nat) (rid : Nat) :
    Except ApiError Recipe :=
  match findOwnedRecipe db caller rid with
  | none => Except.error ApiError.notFound
  | some r => Except.ok r

/-- Modelled from the spec: owner-scoped deletion; deletes the recipe row,
detaching (not deleting) its tag associations. -/
def deleteRecipe (db : DB) (caller : Nat) (rid : Nat) :
    Except ApiError DB :=
  match findOwnedRecipe db caller rid with
  | none => Except.error ApiError.notFound
  | some _ =>
    Except.ok { db with
      recipes := db.recipes.filter (fun r => !(r.user == caller && r.id == rid)) }

/-! ## Tag listing with the assignedOnly filter -/

/-- First-occurrence deduplication of tag rows by id: the distinct
projection of the spec. -/
def dedupByIdAux (seen : List Nat) : List Tag → List Tag
  | [] => []
  | t :: rest =>
    if t.id ∈ seen then dedupByIdAux seen rest
    else t :: dedupByIdAux (t.id :: seen) rest

def dedupById (l : List Tag) : List Tag := dedupByIdAux [] l

/-- The raw join of the owner recipes with the tag table: for each recipe
of the owner, the tag rows it references; a tag referenced by several
recipes appears once per referencing recipe. -/
def assignedTagsJoin (db : DB) (owner : Nat) : List Tag :=
  (db.recipes.filter (fun r => r.user == owner)).flatMap
    (fun r => db.tags.filter (fun t => t.user == owner && r.tagIds.contains t.id))

/-- Modelled from the spec: listForOwner with the assignedOnly flag set
(the view module is not under src): tags of the owner referenced by at
least one of the owner recipes, as a distinct projection over the join
(ordering is abstracted away; the claims are about membership and
multiplicity). -/
def listForOwnerAssigned (db : DB) (owner : Nat) : List Tag :=
  dedupById (assignedTagsJoin db owner)

/-! ## User deletion and reachable states -/

/-- Modelled from the migration and the underlying database semantics: the
Tag user foreign key declares on_delete CASCADE, so deleting a user deletes
every tag row owned by that user; recipe rows of the user are likewise
removed (their user foreign key is also owner-bound). -/
def deleteUser (db : DB) (uid : Nat) : DB :=
  { db with users := db.users.filter (fun u => u != uid)
          , tags := db.tags.filter (fun t => t.user != uid)
          , recipes := db.recipes.filter (fun r => r.user != uid) }

/-- Register a new user id. -/
def addUser (db : DB) (uid : Nat) : DB :=
  { db with users := uid :: db.users }

/-- Modelled from the spec: direct tag creation through the tag endpoint;
the foreign key constraint requires the owner to exist, which the step
relation records as a hypothesis. -/
def addTagRow (db : DB) (owner : Nat) (name : String) : DB :=
  { db with tags := db.tags ++ [{ id := db.nextTagId, user := owner, name := name }]
          , nextTagId := db.nextTagId + 1 }

/-- One observable transition of the system: the operations of the modelled
surface, each write performed by an authenticated existing user. -/
inductive Step : DB → DB → Prop where
  | newUser (db : DB) (uid : Nat) : Step db (addUser db uid)
  | delUser (db : DB) (uid : Nat) : Step db (deleteUser db uid)
  | newTag (db : DB) (owner : Nat) (name : String)
      (howner : owner ∈ db.users) : Step db (addTagRow db owner name)
  | resolveTag (db : DB) (owner : Nat) (name : String) (t : Tag) (db1 : DB)
      (howner : owner ∈ db.users)
      (h : resolveOrCreate db owner name = Except.ok (t, db1)) : Step db db1
  | createR (db : DB) (owner : Nat) (p : RecipePayload) (r : Recipe) (db1 : DB)
      (howner : owner ∈ db.users)
      (h : createRecipe db owner p = Except.ok (r, db1)) : Step db db1
  | patchR (db : DB) (caller : Nat) (rid : Nat) (p : PatchPayload)
      (r : Recipe) (db1 : DB) (howner : caller ∈ db.users)
      (h : patchRecipe db caller rid p = Except.ok (r, db1)) : Step db db1
  | deleteR (db : DB) (caller : Nat) (rid : Nat) (db1 : DB)
      (h : deleteRecipe db caller rid = Except.ok db1) : Step db db1

/-- States reachable from the empty initial state by the modelled
operations. -/
inductive Reachable : DB → Prop where
  | init : Reachable emptyDB
  | step {db db1 : DB} : Reachable db → Step db db1 → Reachable db1

/-- The number of genuinely new names a resolution request carries relative
to a state: the distinct names of the list the owner does not yet have. -/
def newNameCount (db : DB) (o : Nat) (names : List String) : Nat :=
  (names.toFinset.filter (fun m => hasTag db o m = false)).card

/-- Every tag row is owned by an existing user. -/
def TagOwnersExist (db : DB) : Prop :=
  ∀ t ∈ db.tags, t.user ∈ db.users

/-- At most one tag row exists for every (owner, name) pair. -/
def AtMostOnePerKey (db : DB) : Prop :=
  ∀ o n, keyCount db o n ≤ 1

instance {ε α : Type} [DecidableEq ε] [DecidableEq α] : DecidableEq (Except ε α) :=
  fun a b =>
    match a, b with
    | Except.error x, Except.error y =>
      if h : x = y then isTrue (by rw [h]) else isFalse (by intro hc; cases hc; exact h rfl)
    | Except.error _, Except.ok _ => isFalse (by intro hc; cases hc)
    | Except.ok _, Except.error _ => isFalse (by intro hc; cases hc)
    | Except.ok x, Except.ok y =>
      if h : x = y then isTrue (by rw [h]) else isFalse (by intro hc; cases hc; exact h rfl)

/-! ## Lemmas on the labeled-entity repository -/

/-- Case analysis of a successful resolveOrCreate call: either the entity
existed and the state is untouched, or it did not and exactly the one new
row is appended. -/
theorem resolveOrCreate_spec {db : DB} {o : Nat} {n : String} {t : Tag} {db' : DB}
    (h : resolveOrCreate db o n = Except.ok (t, db')) :
    validName n = true ∧
    ((findTag db o n = some t ∧ db' = db) ∨
     (findTag db o n = none ∧ t = { id := db.nextTagId, user := o, name := n } ∧
      db' = { db with tags := db.tags ++ [t], nextTagId := db.nextTagId + 1 })) := by
  unfold resolveOrCreate at h
  by_cases hv : validName n
  · rw [if_pos hv] at h
    refine ⟨hv, ?_⟩
    cases hf : findTag db o n with
    | some t0 =>
      rw [hf] at h
      simp only [Except.ok.injEq, Prod.mk.injEq] at h
      obtain ⟨h1, h2⟩ := h
      exact Or.inl ⟨by rw [h1], h2.symm⟩
    | none =>
      rw [hf] at h
      simp only [Except.ok.injEq, Prod.mk.injEq] at h
      obtain ⟨h1, h2⟩ := h
      exact Or.inr ⟨rfl, h1.symm, by rw [← h2, h1]⟩
  · rw [if_neg hv] at h
    cases h

/-- A successful call leaves the user table, the recipe table and the
recipe counter untouched. -/
theorem resolveOrCreate_frame {db : DB} {o : Nat} {n : String} {t : Tag} {db' : DB}
    (h : resolveOrCreate db o n = Except.ok (t, db')) :
    db'.users = db.users ∧ db'.recipes = db.recipes ∧
    db'.nextRecipeId = db.nextRecipeId := by
  rcases (resolveOrCreate_spec h).2 with ⟨_, rfl⟩ | ⟨_, _, rfl⟩ <;> exact ⟨rfl, rfl, rfl⟩

/-- A pre-existing entity of a possibly different key survives a
successful call, still the first of its key. -/
theorem resolveOrCreate_preserves_findTag {db : DB} {o : Nat} {n : String}
    {t : Tag} {db' : DB} {o2 : Nat} {n2 : String} {t2 : Tag}
    (h : resolveOrCreate db o n = Except.ok (t, db'))
    (h2 : findTag db o2 n2 = some t2) : findTag db' o2 n2 = some t2 := by
  rcases (resolveOrCreate_spec h).2 with ⟨_, rfl⟩ | ⟨_, _, rfl⟩
  · exact h2
  · unfold findTag at h2 ⊢
    rw [List.find?_append, h2]
    rfl

/-- After a successful call the returned entity is the first of its key. -/
theorem resolveOrCreate_findTag_after {db : DB} {o : Nat} {n : String}
    {t : Tag} {db' : DB} (h : resolveOrCreate db o n = Except.ok (t, db')) :
    findTag db' o n = some t := by
  rcases (resolveOrCreate_spec h).2 with ⟨hf, rfl⟩ | ⟨hf, ht, rfl⟩
  · exact hf
  · unfold findTag at hf ⊢
    rw [List.find?_append, hf]
    simp [List.find?, ht]

/-- Ownership of an entity of the given name, phrased as membership. -/
theorem hasTag_iff {db : DB} {o : Nat} {n : String} :
    hasTag db o n = true ↔ ∃ t ∈ db.tags, t.user = o ∧ t.name = n := by
  unfold hasTag findTag
  rw [List.find?_isSome]
  constructor
  · rintro ⟨t, ht, hp⟩
    simp only [Bool.and_eq_true, beq_iff_eq] at hp
    exact ⟨t, ht, hp⟩
  · rintro ⟨t, ht, h1, h2⟩
    exact ⟨t, ht, by simp [h1, h2]⟩

/-- When no entity of the key exists, the key has zero rows. -/
theorem keyCount_eq_zero {db : DB} {o : Nat} {n : String}
    (hf : findTag db o n = none) : keyCount db o n = 0 := by
  unfold findTag at hf
  unfold keyCount
  rw [List.length_eq_zero, List.filter_eq_nil_iff]
  rw [List.find?_eq_none] at hf
  exact hf

/-- When an entity of the key exists, the key has at least one row. -/
theorem keyCount_pos {db : DB} {o : Nat} {n : String} {t : Tag}
    (hf : findTag db o n = some t) : 1 ≤ keyCount db o n := by
  unfold findTag at hf
  unfold keyCount
  have hmem := List.mem_of_find?_eq_some hf
  have hp := List.find?_some hf
  have hm : t ∈ db.tags.filter (fun t => t.user == o && t.name == n) :=
    List.mem_filter.mpr ⟨hmem, hp⟩
  exact List.length_pos.mpr (fun hc => by rw [hc] at hm; cases hm)

/-- After a successful call exactly one row of the key exists, whenever at
most one existed before. -/
theorem keyCount_after {db : DB} {o : Nat} {n : String} {t : Tag} {db' : DB}
    (hle : keyCount db o n ≤ 1)
    (h : resolveOrCreate db o n = Except.ok (t, db')) : keyCount db' o n = 1 := by
  rcases (resolveOrCreate_spec h).2 with ⟨hf, rfl⟩ | ⟨hf, ht, rfl⟩
  · exact Nat.le_antisymm hle (keyCount_pos hf)
  · unfold keyCount
    show (List.filter _ (db.tags ++ [t])).length = 1
    rw [List.filter_append]
    have h0 : keyCount db o n = 0 := keyCount_eq_zero hf
    unfold keyCount at h0
    rw [List.length_eq_zero] at h0
    rw [h0, List.nil_append, ht]
    simp

/-- A successful call for one key leaves the row count of every other key
unchanged. -/
theorem keyCount_after_ne {db : DB} {o : Nat} {n : String} {t : Tag} {db' : DB}
    {o2 : Nat} {n2 : String} (hne : ¬(o2 = o ∧ n2 = n))
    (h : resolveOrCreate db o n = Except.ok (t, db')) :
    keyCount db' o2 n2 = keyCount db o2 n2 := by
  rcases (resolveOrCreate_spec h).2 with ⟨_, rfl⟩ | ⟨_, ht, rfl⟩
  · rfl
  · unfold keyCount
    show (List.filter _ (db.tags ++ [t])).length = _
    rw [List.filter_append]
    have : (t.user == o2 && t.name == n2) = false := by
      rw [ht]
      simp only [Bool.and_eq_false_iff, beq_eq_false_iff_ne]
      by_cases ho : o2 = o
      · exact Or.inr (fun hc => hne ⟨ho, hc.symm⟩)
      · exact Or.inl (fun hc => ho hc.symm)
    simp [List.filter, this]

/-- Per-owner tag count after a successful call: unchanged when the name
already existed, one more when it was created. -/
theorem tagCount_after {db : DB} {o : Nat} {n : String} {t : Tag} {db' : DB}
    (h : resolveOrCreate db o n = Except.ok (t, db')) :
    tagCount db' o = tagCount db o + (if hasTag db o n then 0 else 1) := by
  rcases (resolveOrCreate_spec h).2 with ⟨hf, rfl⟩ | ⟨hf, ht, rfl⟩
  · unfold hasTag
    rw [hf]
    rfl
  · unfold hasTag
    rw [hf]
    unfold tagCount
    show (List.filter _ (db.tags ++ [t])).length = _
    rw [List.filter_append, List.length_append, ht]
    simp

/-- Name availability after a successful call: a name is present afterwards
iff it was present before or is the name just resolved. -/
theorem hasTag_after {db : DB} {o : Nat} {n : String} {t : Tag} {db' : DB}
    (h : resolveOrCreate db o n = Except.ok (t, db')) (m : String) :
    (hasTag db' o m = true ↔ hasTag db o m = true ∨ m = n) := by
  rcases (resolveOrCreate_spec h).2 with ⟨hf, rfl⟩ | ⟨hf, ht, rfl⟩
  · constructor
    · exact Or.inl
    · rintro (hm | rfl)
      · exact hm
      · unfold hasTag
        rw [hf]
        rfl
  · unfold hasTag findTag
    show ((db.tags ++ [t]).find? _).isSome = true ↔ _
    rw [List.find?_append, Option.isSome_or]
    constructor
    · intro hor
      rcases Bool.or_eq_true .. ▸ hor with h1 | h2
      · exact Or.inl h1
      · right
        rw [ht] at h2
        simp only [List.find?] at h2
        by_cases hm : m = n
        · exact hm
        · exfalso
          have : (({ id := db.nextTagId, user := o, name := n } : Tag).user == o &&
              ({ id := db.nextTagId, user := o, name := n } : Tag).name == m) = false := by
            simp [hm, Ne.symm hm]
          rw [this] at h2
          cases h2
    · rintro (h1 | rfl)
      · rw [Bool.or_eq_true]
        exact Or.inl h1
      · rw [Bool.or_eq_true]
        right
        rw [ht]
        simp [List.find?]

/-- Idempotence: a second call with the same arguments returns the same
entity and leaves the state unchanged. -/
theorem resolveOrCreate_idem {db : DB} {o : Nat} {n : String} {t : Tag} {db' : DB}
    (h : resolveOrCreate db o n = Except.ok (t, db')) :
    resolveOrCreate db' o n = Except.ok (t, db') := by
  have hv := (resolveOrCreate_spec h).1
  have hf := resolveOrCreate_findTag_after h
  unfold resolveOrCreate
  rw [if_pos hv, hf]

/-! ## Lemmas on list resolution -/

/-- Inversion of a successful resolution of an empty list. -/
theorem resolveAll_nil_inv {o : Nat} {db : DB} {ids : List Nat} {db' : DB}
    (h : resolveAll o db [] = Except.ok (ids, db')) : ids = [] ∧ db' = db := by
  unfold resolveAll at h
  simp only [Except.ok.injEq, Prod.mk.injEq] at h
  exact ⟨h.1.symm, h.2.symm⟩

/-- Inversion of a successful resolution of a non-empty list. -/
theorem resolveAll_cons_inv {o : Nat} {n : String} {rest : List String}
    {db : DB} {ids : List Nat} {db' : DB}
    (h : resolveAll o db (n :: rest) = Except.ok (ids, db')) :
    ∃ t db1 ids2, resolveOrCreate db o n = Except.ok (t, db1) ∧
      resolveAll o db1 rest = Except.ok (ids2, db') ∧ ids = t.id :: ids2 := by
  unfold resolveAll at h
  split at h
  · cases h
  · rename_i t db1 heq
    split at h
    · cases h
    · rename_i ids2 db2 heq2
      simp only [Except.ok.injEq, Prod.mk.injEq] at h
      exact ⟨t, db1, ids2, heq, h.2 ▸ heq2, h.1.symm⟩

/-- Resolving a list of names leaves users, recipes and the recipe counter
untouched. -/
theorem resolveAll_frame {o : Nat} {names : List String} :
    ∀ {db ids db'}, resolveAll o db names = Except.ok (ids, db') →
    db'.users = db.users ∧ db'.recipes = db.recipes ∧
    db'.nextRecipeId = db.nextRecipeId := by
  induction names with
  | nil =>
    intro db ids db' h
    obtain ⟨-, rfl⟩ := resolveAll_nil_inv h
    exact ⟨rfl, rfl, rfl⟩
  | cons n rest ih =>
    intro db ids db' h
    obtain ⟨t, db1, ids2, h1, h2, -⟩ := resolveAll_cons_inv h
    obtain ⟨a1, a2, a3⟩ := resolveOrCreate_frame h1
    obtain ⟨b1, b2, b3⟩ := ih h2
    exact ⟨b1.trans a1, b2.trans a2, b3.trans a3⟩

/-- Existing rows survive list resolution. -/
theorem resolveAll_tags_mono {o : Nat} {names : List String} :
    ∀ {db ids db'}, resolveAll o db names = Except.ok (ids, db') →
    ∀ t2 ∈ db.tags, t2 ∈ db'.tags := by
  induction names with
  | nil =>
    intro db ids db' h
    obtain ⟨-, rfl⟩ := resolveAll_nil_inv h
    exact fun t2 ht2 => ht2
  | cons n rest ih =>
    intro db ids db' h t2 ht2
    obtain ⟨t, db1, ids2, h1, h2, -⟩ := resolveAll_cons_inv h
    refine ih h2 t2 ?_
    rcases (resolveOrCreate_spec h1).2 with ⟨-, rfl⟩ | ⟨-, -, rfl⟩
    · exact ht2
    · exact List.mem_append.mpr (Or.inl ht2)

/-- Every row present after list resolution was present before or belongs
to the resolving owner. -/
theorem resolveAll_tags_bound {o : Nat} {names : List String} :
    ∀ {db ids db'}, resolveAll o db names = Except.ok (ids, db') →
    ∀ t2 ∈ db'.tags, t2 ∈ db.tags ∨ t2.user = o := by
  induction names with
  | nil =>
    intro db ids db' h
    obtain ⟨-, rfl⟩ := resolveAll_nil_inv h
    exact fun t2 ht2 => Or.inl ht2
  | cons n rest ih =>
    intro db ids db' h t2 ht2
    obtain ⟨t, db1, ids2, h1, h2, -⟩ := resolveAll_cons_inv h
    rcases ih h2 t2 ht2 with hin | hu
    · rcases (resolveOrCreate_spec h1).2 with ⟨-, rfl⟩ | ⟨-, ht, rfl⟩
      · exact Or.inl hin
      · rcases List.mem_append.mp hin with hl | hr
        · exact Or.inl hl
        · right
          cases List.mem_singleton.mp hr
          rw [ht]
    · exact Or.inr hu

/-- A pre-existing first-of-its-key row is still the first of its key
after list resolution. -/
theorem resolveAll_preserves_findTag {o : Nat} {names : List String} :
    ∀ {db ids db'}, resolveAll o db names = Except.ok (ids, db') →
    ∀ {o2 n2 t2}, findTag db o2 n2 = some t2 → findTag db' o2 n2 = some t2 := by
  induction names with
  | nil =>
    intro db ids db' h o2 n2 t2 h2
    obtain ⟨-, rfl⟩ := resolveAll_nil_inv h
    exact h2
  | cons n rest ih =>
    intro db ids db' h o2 n2 t2 h2
    obtain ⟨t, db1, ids2, h1, hrest, -⟩ := resolveAll_cons_inv h
    exact ih hrest (resolveOrCreate_preserves_findTag h1 h2)

/-- A name in the resolved list that resolves to a pre-existing entity
contributes exactly that identity to the resolved ids. -/
theorem resolveAll_mem_ids {o : Nat} {names : List String} :
    ∀ {db ids db'} {n : String} {t : Tag},
    resolveAll o db names = Except.ok (ids, db') → n ∈ names →
    findTag db o n = some t → t.id ∈ ids := by
  induction names with
  | nil => intro db ids db' n t h hn; cases hn
  | cons m rest ih =>
    intro db ids db' n t h hn hf
    obtain ⟨t1, db1, ids2, h1, hrest, rfl⟩ := resolveAll_cons_inv h
    rcases List.mem_cons.mp hn with rfl | hn2
    · have hv := (resolveOrCreate_spec h1).1
      have : resolveOrCreate db o n = Except.ok (t, db) := by
        unfold resolveOrCreate
        rw [if_pos hv, hf]
      rw [this] at h1
      simp only [Except.ok.injEq, Prod.mk.injEq] at h1
      rw [← h1.1]
      exact List.mem_cons_self _ _
    · exact List.mem_cons.mpr
        (Or.inr (ih hrest hn2 (resolveOrCreate_preserves_findTag h1 hf)))

/-- Shifting the new-names filter across one resolution step erases the
resolved name. -/
theorem filter_newNames_shift {db db1 : DB} {o : Nat} {n : String}
    (hiff : ∀ m, hasTag db1 o m = true ↔ hasTag db o m = true ∨ m = n)
    (S : Finset String) :
    S.filter (fun m => hasTag db1 o m = false) =
      (S.filter (fun m => hasTag db o m = false)).erase n := by
  ext m
  simp only [Finset.mem_filter, Finset.mem_erase]
  constructor
  · rintro ⟨hmS, hm1⟩
    have hno : ¬(hasTag db o m = true ∨ m = n) := by
      rw [← hiff m]
      simp [hm1]
    push_neg at hno
    refine ⟨hno.2, hmS, ?_⟩
    have := hno.1
    simp only [Bool.not_eq_true] at this
    exact this
  · rintro ⟨hmn, hmS, hm0⟩
    refine ⟨hmS, ?_⟩
    have hno : ¬ hasTag db1 o m = true := by
      rw [hiff m]
      push_neg
      exact ⟨by simp [hm0], hmn⟩
    simp only [Bool.not_eq_true] at hno
    exact hno

/-- Resolving a list of names grows the per-owner entity count by exactly
the number of genuinely new names. -/
theorem resolveAll_tagCount {o : Nat} {names : List String} :
    ∀ {db ids db'}, resolveAll o db names = Except.ok (ids, db') →
    tagCount db' o = tagCount db o + newNameCount db o names := by
  induction names with
  | nil =>
    intro db ids db' h
    obtain ⟨-, rfl⟩ := resolveAll_nil_inv h
    simp [newNameCount]
  | cons n rest ih =>
    intro db ids db' h
    obtain ⟨t, db1, ids2, h1, hrest, -⟩ := resolveAll_cons_inv h
    have hstep := tagCount_after h1
    have hiff := hasTag_after h1
    have hih := ih hrest
    have hshift := filter_newNames_shift hiff rest.toFinset
    unfold newNameCount at hih ⊢
    rw [List.toFinset_cons, Finset.filter_insert]
    by_cases hn : hasTag db o n
    · rw [if_pos hn] at hstep
      have hPn : ¬ hasTag db o n = false := by simp [hn]
      rw [if_neg hPn]
      have hnotmem : n ∉ rest.toFinset.filter (fun m => hasTag db o m = false) := by
        intro hc
        exact hPn (Finset.mem_filter.mp hc).2
      rw [hih, hshift, Finset.erase_eq_of_not_mem hnotmem, hstep]
      omega
    · have hn' : hasTag db o n = false := by simp at hn; exact hn
      rw [if_neg (by simp [hn] : ¬ hasTag db o n = true)] at hstep
      rw [if_pos hn']
      rw [hih, hshift, hstep]
      by_cases hmem : n ∈ rest.toFinset.filter (fun m => hasTag db o m = false)
      · rw [Finset.insert_eq_self.mpr hmem]
        have := Finset.card_erase_add_one hmem
        omega
      · rw [Finset.erase_eq_of_not_mem hmem,
          Finset.card_insert_of_not_mem hmem]
        omega

/-! ## Lemmas on recipe operations -/

/-- Inversion of a single-name resolution. -/
theorem resolveAll_singleton {o : Nat} {x : String} {db : DB} {ids : List Nat}
    {db' : DB} (h : resolveAll o db [x] = Except.ok (ids, db')) :
    ∃ t, resolveOrCreate db o x = Except.ok (t, db') ∧ ids = [t.id] := by
  obtain ⟨t, db1, ids2, h1, hrest, rfl⟩ := resolveAll_cons_inv h
  obtain ⟨rfl, rfl⟩ := resolveAll_nil_inv hrest
  exact ⟨t, h1, rfl⟩

/-- Inversion of a successful recipe creation. -/
theorem createRecipe_inv {db : DB} {o : Nat} {p : RecipePayload} {r : Recipe}
    {db' : DB} (h : createRecipe db o p = Except.ok (r, db')) :
    ∃ ids db1, resolveAll o db (p.tags.getD []) = Except.ok (ids, db1) ∧
      r = { id := db1.nextRecipeId, user := o, title := p.title
          , timeMinutes := p.timeMinutes, price := p.price
          , description := p.description.getD "", link := p.link.getD ""
          , tagIds := ids } ∧
      db' = { db1 with recipes := db1.recipes ++ [r]
                     , nextRecipeId := db1.nextRecipeId + 1 } := by
  unfold createRecipe at h
  split at h
  · cases h
  · split at h
    · cases h
    · rename_i ids db1 heq
      simp only [Except.ok.injEq, Prod.mk.injEq] at h
      refine ⟨ids, db1, heq, h.1.symm, ?_⟩
      rw [← h.2, h.1]

/-- A successful owner-scoped lookup returns a stored row of that owner
with that id. -/
theorem findOwnedRecipe_some {db : DB} {caller rid : Nat} {r : Recipe}
    (h : findOwnedRecipe db caller rid = some r) :
    r ∈ db.recipes ∧ r.user = caller ∧ r.id = rid := by
  unfold findOwnedRecipe at h
  have hmem := List.mem_of_find?_eq_some h
  have hp := List.find?_some h
  simp only [Bool.and_eq_true, beq_iff_eq] at hp
  exact ⟨hmem, hp.1, hp.2⟩

/-- Inversion of a successful merge update. -/
theorem patchRecipe_inv {db : DB} {caller rid : Nat} {p : PatchPayload}
    {r1 : Recipe} {db' : DB}
    (h : patchRecipe db caller rid p = Except.ok (r1, db')) :
    ∃ r, findOwnedRecipe db caller rid = some r ∧
      ((p.tags = none ∧ r1 = mergeScalars r p r.tagIds ∧
        db' = storeRecipe db r1) ∨
       (∃ names ids db1, p.tags = some names ∧
        resolveAll caller db names = Except.ok (ids, db1) ∧
        r1 = mergeScalars r p ids ∧ db' = storeRecipe db1 r1)) := by
  unfold patchRecipe at h
  split at h
  · cases h
  · rename_i r hfound
    split at h
    · rename_i htags
      simp only [Except.ok.injEq, Prod.mk.injEq] at h
      refine ⟨r, hfound, Or.inl ⟨htags, h.1.symm, ?_⟩⟩
      rw [← h.2, h.1]
    · rename_i names htags
      split at h
      · cases h
      · rename_i ids db1 heq
        simp only [Except.ok.injEq, Prod.mk.injEq] at h
        refine ⟨r, hfound, Or.inr ⟨names, ids, db1, htags, heq, h.1.symm, ?_⟩⟩
        rw [← h.2, h.1]

/-- Merging scalars never changes the id or the owner, and installs exactly
the supplied association set. -/
theorem mergeScalars_fields (r : Recipe) (p : PatchPayload) (ids : List Nat) :
    (mergeScalars r p ids).id = r.id ∧ (mergeScalars r p ids).user = r.user ∧
    (mergeScalars r p ids).tagIds = ids :=
  ⟨rfl, rfl, rfl⟩

/-- Writing back a row touches only the recipe table. -/
theorem storeRecipe_frame (db : DB) (r1 : Recipe) :
    (storeRecipe db r1).tags = db.tags ∧ (storeRecipe db r1).users = db.users :=
  ⟨rfl, rfl⟩

/-- Writing back a row makes it the row its id resolves to, provided a row
with that id was stored. -/
theorem find?_map_store : ∀ {l : List Recipe} {r1 : Recipe},
    (∃ x ∈ l, x.id = r1.id) →
    (l.map (fun x => if x.id == r1.id then r1 else x)).find?
      (fun r => r.id == r1.id) = some r1 := by
  intro l
  induction l with
  | nil =>
    rintro r1 ⟨x, hx, -⟩
    cases hx
  | cons a l ih =>
    rintro r1 hex
    rw [List.map_cons]
    by_cases ha : a.id = r1.id
    · rw [if_pos (by simp [ha])]
      simp [List.find?]
    · rw [if_neg (by simp [ha])]
      rw [List.find?]
      have hfalse : (a.id == r1.id) = false := by simp [ha]
      rw [hfalse]
      apply ih
      rcases hex with ⟨x, hx, hxid⟩
      rcases List.mem_cons.mp hx with rfl | hx2
      · exact absurd hxid ha
      · exact ⟨x, hx2, hxid⟩

theorem recipeById_store {db : DB} {r1 : Recipe}
    (hex : ∃ x ∈ db.recipes, x.id = r1.id) :
    recipeById (storeRecipe db r1) r1.id = some r1 :=
  find?_map_store hex

/-! ## Lemmas on the distinct projection -/

/-- Every row the accumulator-based deduplication keeps comes from its
input. -/
theorem mem_of_mem_dedupByIdAux : ∀ (seen : List Nat) (l : List Tag)
    (t : Tag), t ∈ dedupByIdAux seen l → t ∈ l := by
  intro seen l
  induction l generalizing seen with
  | nil =>
    intro t ht
    cases ht
  | cons a l ih =>
    intro t ht
    rw [dedupByIdAux] at ht
    by_cases hs : a.id ∈ seen
    · rw [if_pos hs] at ht
      exact List.mem_cons_of_mem a (ih seen t ht)
    · rw [if_neg hs] at ht
      rcases List.mem_cons.mp ht with rfl | h2
      · exact List.mem_cons_self _ _
      · exact List.mem_cons_of_mem a (ih _ t h2)

/-- Every row of the distinct projection comes from the raw join. -/
theorem mem_of_mem_dedupById {l : List Tag} {t : Tag}
    (h : t ∈ dedupById l) : t ∈ l :=
  mem_of_mem_dedupByIdAux [] l t h

/-- A row of the input whose id the accumulator has not yet seen is kept,
whenever the input carries at most one row per id. -/
theorem mem_dedupByIdAux : ∀ (seen : List Nat) (l : List Tag),
    (∀ a ∈ l, ∀ b ∈ l, a.id = b.id → a = b) →
    ∀ t : Tag, t ∈ l → t.id ∉ seen → t ∈ dedupByIdAux seen l := by
  intro seen l
  induction l generalizing seen with
  | nil =>
    intro hinj t ht
    cases ht
  | cons a l ih =>
    intro hinj t ht hseen
    rw [dedupByIdAux]
    have hinj2 : ∀ x ∈ l, ∀ y ∈ l, x.id = y.id → x = y := by
      intro x hx y hy hxy
      exact hinj x (List.mem_cons_of_mem a hx) y (List.mem_cons_of_mem a hy) hxy
    by_cases hta : t = a
    · subst hta
      rw [if_neg hseen]
      exact List.mem_cons_self _ _
    · have h2 : t ∈ l := by
        rcases List.mem_cons.mp ht with heq | h2
        · exact absurd heq hta
        · exact h2
      by_cases hs : a.id ∈ seen
      · rw [if_pos hs]
        exact ih seen hinj2 t h2 hseen
      · rw [if_neg hs]
        refine List.mem_cons_of_mem a (ih _ hinj2 t h2 ?_)
        intro hc
        rcases List.mem_cons.mp hc with hid | hmem
        · exact hta (hinj t ht a (List.mem_cons_self a l) hid)
        · exact hseen hmem
      
/-- A row of the raw join appears in the distinct projection whenever the
join carries at most one row per id. -/
theorem mem_dedupById {l : List Tag}
    (hinj : ∀ a ∈ l, ∀ b ∈ l, a.id = b.id → a = b) {t : Tag} (ht : t ∈ l) :
    t ∈ dedupById l :=
  mem_dedupByIdAux [] l hinj t ht (by intro h; cases h)

/-- The accumulator-based deduplication keeps no id twice and none it has
already seen. -/
theorem dedupByIdAux_ids_nodup : ∀ (seen : List Nat) (l : List Tag),
    ((dedupByIdAux seen l).map (fun t => t.id)).Nodup ∧
    ∀ t ∈ dedupByIdAux seen l, t.id ∉ seen := by
  intro seen l
  induction l generalizing seen with
  | nil =>
    exact ⟨List.nodup_nil, by intro t ht; cases ht⟩
  | cons a l ih =>
    rw [dedupByIdAux]
    by_cases hs : a.id ∈ seen
    · rw [if_pos hs]
      exact ih seen
    · rw [if_neg hs]
      obtain ⟨hnodup, havoid⟩ := ih (a.id :: seen)
      refine ⟨?_, ?_⟩
      · rw [List.map_cons]
        refine List.nodup_cons.mpr ⟨?_, hnodup⟩
        intro hc
        rcases List.mem_map.mp hc with ⟨t, ht, hid⟩
        exact havoid t ht (hid ▸ List.mem_cons_self _ _)
      · intro t ht
        rcases List.mem_cons.mp ht with rfl | h2
        · exact hs
        · intro hc
          exact havoid t h2 (List.mem_cons_of_mem _ hc)

/-- The distinct projection carries no two rows with the same id. -/
theorem dedupById_ids_nodup (l : List Tag) :
    ((dedupById l).map (fun t => t.id)).Nodup :=
  (dedupByIdAux_ids_nodup [] l).1

/-- Membership in the raw join, characterized. -/
theorem mem_assignedTagsJoin {db : DB} {o : Nat} {t : Tag} :
    t ∈ assignedTagsJoin db o ↔
    t ∈ db.tags ∧ t.user = o ∧ ∃ r ∈ db.recipes, r.user = o ∧ t.id ∈ r.tagIds := by
  unfold assignedTagsJoin
  rw [List.mem_flatMap]
  constructor
  · rintro ⟨r, hr, ht⟩
    obtain ⟨hrmem, hru⟩ := List.mem_filter.mp hr
    obtain ⟨htmem, htp⟩ := List.mem_filter.mp ht
    simp only [Bool.and_eq_true, beq_iff_eq] at htp hru
    exact ⟨htmem, htp.1, r, hrmem, hru, List.elem_iff.mp htp.2⟩
  · rintro ⟨htmem, htu, r, hrmem, hru, hid⟩
    refine ⟨r, List.mem_filter.mpr ⟨hrmem, by simp [hru]⟩, ?_⟩
    refine List.mem_filter.mpr ⟨htmem, ?_⟩
    simp only [Bool.and_eq_true, beq_iff_eq]
    exact ⟨htu, List.elem_iff.mpr hid⟩

/-! ## Lemmas on email normalization -/

/-- A character list without an at-sign does not split. -/
theorem rsplitAtSign_of_not_mem : ∀ {d : List Char}, '@' ∉ d →
    rsplitAtSign d = none := by
  intro d
  induction d with
  | nil => intro; rfl
  | cons c rest ih =>
    intro hd
    have hc : c ≠ '@' := fun hc => hd (hc ▸ List.mem_cons_self c rest)
    have hrest : '@' ∉ rest := fun hm => hd (List.mem_cons_of_mem c hm)
    unfold rsplitAtSign
    rw [ih hrest, if_neg hc]

/-- Splitting a list whose last at-sign separates the given parts. -/
theorem rsplitAtSign_append {d : List Char} (hd : '@' ∉ d) :
    ∀ (l : List Char), rsplitAtSign (l ++ '@' :: d) = some (l, d) := by
  intro l
  induction l with
  | nil =>
    show rsplitAtSign ('@' :: d) = some ([], d)
    unfold rsplitAtSign
    rw [rsplitAtSign_of_not_mem hd, if_pos rfl]
  | cons c rest ih =>
    show rsplitAtSign (c :: (rest ++ '@' :: d)) = _
    unfold rsplitAtSign
    rw [ih]

/-! ## Referential integrity of tag ownership -/

/-- Each modelled operation preserves tag-owner referential integrity:
creation paths require the owner to exist, and user deletion cascades to
the tags of the deleted user. -/
theorem step_preserves_tagOwners {db db1 : DB} (hs : Step db db1)
    (hI : TagOwnersExist db) : TagOwnersExist db1 := by
  cases hs with
  | newUser uid =>
    intro t ht
    exact List.mem_cons_of_mem _ (hI t ht)
  | delUser uid =>
    intro t ht
    obtain ⟨htags, hne⟩ := List.mem_filter.mp ht
    exact List.mem_filter.mpr ⟨hI t htags, hne⟩
  | newTag owner name howner =>
    intro t ht
    rcases List.mem_append.mp ht with h1 | h2
    · exact hI t h1
    · cases List.mem_singleton.mp h2
      exact howner
  | resolveTag owner name t0 db2 howner h =>
    intro t ht
    rcases (resolveOrCreate_spec h).2 with ⟨-, rfl⟩ | ⟨-, ht0, rfl⟩
    · exact hI t ht
    · rcases List.mem_append.mp ht with h1 | h2
      · exact hI t h1
      · cases List.mem_singleton.mp h2
        rw [ht0]
        exact howner
  | createR owner p r db2 howner h =>
    intro t ht
    obtain ⟨ids, dbm, hra, -, rfl⟩ := createRecipe_inv h
    have husers := (resolveAll_frame hra).1
    show t.user ∈ dbm.users
    rw [husers]
    rcases resolveAll_tags_bound hra t ht with hin | hu
    · exact hI t hin
    · rw [hu]
      exact howner
  | patchR caller rid p r db2 howner h =>
    intro t ht
    obtain ⟨r0, -, hcase⟩ := patchRecipe_inv h
    rcases hcase with ⟨-, -, rfl⟩ | ⟨names, ids, dbm, -, hra, -, rfl⟩
    · exact hI t ht
    · have husers := (resolveAll_frame hra).1
      show t.user ∈ dbm.users
      rw [husers]
      rcases resolveAll_tags_bound hra t ht with hin | hu
      · exact hI t hin
      · rw [hu]
        exact howner
  | deleteR caller rid db2 h =>
    intro t ht
    unfold deleteRecipe at h
    split at h
    · cases h
    · cases Except.ok.inj h
      exact hI t ht

/-- Tag-owner referential integrity holds in every reachable state. -/
theorem reachable_tagOwners {db : DB} (h : Reachable db) : TagOwnersExist db := by
  induction h with
  | init =>
    intro t ht
    cases ht
  | step hr hs ih => exact step_preserves_tagOwners hs ih

/-- A successful merge update stores the updated row under the requested
id, with the owner of the original row. -/
theorem patchRecipe_stored {db : DB} {caller rid : Nat} {p : PatchPayload}
    {r1 : Recipe} {db' : DB}
    (h : patchRecipe db caller rid p = Except.ok (r1, db')) :
    r1.id = rid ∧ r1.user = caller ∧ recipeById db' rid = some r1 := by
  obtain ⟨r, hfound, hcase⟩ := patchRecipe_inv h
  obtain ⟨hmem, hruser, hrid⟩ := findOwnedRecipe_some hfound
  rcases hcase with ⟨-, hr1, rfl⟩ | ⟨names, ids, db1, -, hra, hr1, rfl⟩
  · have hid : r1.id = rid := by rw [hr1]; exact hrid
    have huser : r1.user = caller := by rw [hr1]; exact hruser
    refine ⟨hid, huser, ?_⟩
    rw [← hid]
    exact recipeById_store ⟨r, hmem, by rw [hr1]; rfl⟩
  · have hid : r1.id = rid := by rw [hr1]; exact hrid
    have huser : r1.user = caller := by rw [hr1]; exact hruser
    refine ⟨hid, huser, ?_⟩
    rw [← hid]
    refine recipeById_store ⟨r, ?_, by rw [hr1]; rfl⟩
    rw [(resolveAll_frame hra).2.1]
    exact hmem

/-! ## The claims -/

/-- C9: the calc module satisfies add 5 6 = 11 and subtract 5 10 = 5, and
subtract returns its second argument minus its first, not the first minus
the second. -/
theorem C9_calc_add_subtract :
    Calc.add 5 6 = 11 ∧ Calc.subtract 5 10 = 5 ∧
    ∀ a b : Int, Calc.subtract a b = b - a :=
  ⟨by decide, by decide, fun a b => rfl⟩

/-- C6: for every accepted email the stored identifier keeps the local part
exactly as supplied and lower-cases the domain part, and creating a user
with an empty email identifier is rejected with an error. -/
theorem C6_email_normalized_empty_rejected :
    (∀ l d : List Char, '@' ∉ d →
      normalizeEmail (String.mk (l ++ '@' :: d)) =
        String.mk (l ++ '@' :: d.map Char.toLower)) ∧
    (∀ e pw u, createUser e pw = Except.ok u → u.email = normalizeEmail e) ∧
    (∀ pw, createUser "" pw = Except.error "ValueError") := by
  refine ⟨?_, ?_, ?_⟩
  · intro l d hd
    unfold normalizeEmail
    have hdata : (String.mk (l ++ '@' :: d)).data = l ++ '@' :: d := rfl
    rw [hdata, rsplitAtSign_append hd]
  · intro e pw u h
    unfold createUser at h
    split at h
    · cases h
    · cases Except.ok.inj h
      rfl
  · intro pw
    unfold createUser
    rw [if_pos rfl]

/-- Witness for C6 at the second vector of the email test: the address
Test2@Example.com normalizes with its local part intact and its domain
lower-cased. -/
theorem C6_email_normalized_empty_rejected_witness :
    ('@' ∉ "Example.com".data) ∧
    normalizeEmail "Test2@Example.com" = "Test2@example.com" := by
  refine ⟨by decide, ?_⟩
  have h := C6_email_normalized_empty_rejected.1 "Test2".data "Example.com".data
    (by decide)
  have e1 : String.mk ("Test2".data ++ '@' :: "Example.com".data) =
      "Test2@Example.com" := by decide
  have e2 : String.mk ("Test2".data ++ '@' :: ("Example.com".data.map Char.toLower)) =
      "Test2@example.com" := by decide
  rw [e1, e2] at h
  exact h

/-- C8: the superuser path of the user factory yields a user with both the
staff flag and the superuser flag set, on top of the normal creation
postconditions: normalized stored email and verifiable credential. -/
theorem C8_superuser_flags :
    ∀ e pw u, createSuperuser e pw = Except.ok u →
      u.isStaff = true ∧ u.isSuperuser = true ∧
      u.email = normalizeEmail e ∧ checkPassword u pw = true := by
  intro e pw u h
  unfold createSuperuser at h
  split at h
  · cases h
  · rename_i u0 heq
    unfold createUser at heq
    split at heq
    · cases heq
    · cases Except.ok.inj heq
      cases Except.ok.inj h
      refine ⟨rfl, rfl, rfl, ?_⟩
      simp [checkPassword]

/-- Witness for C8 at the input of the superuser test. -/
theorem C8_superuser_flags_witness :
    ({ email := "test@example.com", password := "test123"
     , isStaff := true, isSuperuser := true } : User).isStaff = true ∧
    ({ email := "test@example.com", password := "test123"
     , isStaff := true, isSuperuser := true } : User).isSuperuser = true ∧
    ({ email := "test@example.com", password := "test123"
     , isStaff := true, isSuperuser := true } : User).email =
      normalizeEmail "test@example.com" ∧
    checkPassword
      { email := "test@example.com", password := "test123"
      , isStaff := true, isSuperuser := true } "test123" = true :=
  C8_superuser_flags "test@example.com" "test123"
    { email := "test@example.com", password := "test123"
    , isStaff := true, isSuperuser := true } (by decide)

/-- C2 counterexample: the Tag table as created by the migration declares
no uniqueness constraint covering the user and name columns, so per-owner
name uniqueness is not enforced by a uniqueness constraint in the persisted
Tag table. -/
theorem C2_no_schema_constraint_counterexample :
    ¬ declaresUniquePair tagModel "user" "name" := by decide

/-- C2 (amended): the at-most-one-per-(owner, name) invariant is preserved
by the resolution path, but the persisted Tag table declares no uniqueness
constraint at all, so the invariant rests on the get-or-create lookup, not
on the schema. -/
theorem C2_per_owner_uniqueness_behavioral :
    tagModel.uniqueTogether = [] ∧
    (∀ db o n t db', AtMostOnePerKey db →
      resolveOrCreate db o n = Except.ok (t, db') → AtMostOnePerKey db') := by
  refine ⟨rfl, ?_⟩
  intro db o n t db' hA hok o2 n2
  by_cases hk : o2 = o ∧ n2 = n
  · obtain ⟨rfl, rfl⟩ := hk
    rw [keyCount_after (hA o2 n2) hok]
  · rw [keyCount_after_ne hk hok]
    exact hA o2 n2

/-- Witness for the amended C2: resolving Thai for user 1 in a one-user
state preserves the at-most-one bound at the resolved key. -/
theorem C2_per_owner_uniqueness_behavioral_witness :
    keyCount
      { users := [1], tags := [{ id := 0, user := 1, name := "Thai" }]
      , recipes := [], nextTagId := 1, nextRecipeId := 0 } 1 "Thai" ≤ 1 :=
  C2_per_owner_uniqueness_behavioral.2 (addUser emptyDB 1) 1 "Thai"
    { id := 0, user := 1, name := "Thai" }
    { users := [1], tags := [{ id := 0, user := 1, name := "Thai" }]
    , recipes := [], nextTagId := 1, nextRecipeId := 0 }
    (fun o n => by simp [keyCount, addUser, emptyDB]) (by decide) 1 "Thai"

/-- C10: the Tag user foreign key is declared with cascade-on-delete, user
deletion removes every tag the deleted user owned, and in every reachable
state every tag is owned by an existing user. -/
theorem C10_cascade_delete_integrity :
    tagUserOnDelete = some OnDelete.cascade ∧
    (∀ (db : DB) (uid : Nat), ∀ t ∈ (deleteUser db uid).tags, t.user ≠ uid) ∧
    (∀ db : DB, Reachable db → TagOwnersExist db) := by
  refine ⟨rfl, ?_, fun db h => reachable_tagOwners h⟩
  intro db uid t ht
  have := (List.mem_filter.mp ht).2
  simpa using this

/-- Witness for C10: in a cascaded deletion of user 2 a surviving tag of
user 1 is not owned by 2, and in a reachable two-step state the tag owner
is a registered user. -/
theorem C10_cascade_delete_integrity_witness :
    (({ id := 0, user := 1, name := "A" } : Tag).user ≠ 2) ∧
    ((1 : Nat) ∈ (addTagRow (addUser emptyDB 1) 1 "A").users) := by
  constructor
  · exact C10_cascade_delete_integrity.2.1
      { users := [2, 1]
      , tags := [{ id := 0, user := 1, name := "A" }
               , { id := 1, user := 2, name := "B" }]
      , recipes := [], nextTagId := 2, nextRecipeId := 0 } 2
      { id := 0, user := 1, name := "A" } (by decide)
  · refine C10_cascade_delete_integrity.2.2 _
      (Reachable.step (Reachable.step Reachable.init (Step.newUser emptyDB 1))
        (Step.newTag (addUser emptyDB 1) 1 "A" (by decide)))
      { id := 0, user := 1, name := "A" } (by decide)

/-- C3: resolveOrCreate is idempotent; after any successful call exactly
one entity of the key exists (from an at-most-one state); recipe creation
attaches a pre-existing entity of a nested name by identity; and recipe
creation grows the per-owner entity count by exactly the number of
genuinely new names. -/
theorem C3_resolve_or_create_idempotent :
    (∀ db o n t db', resolveOrCreate db o n = Except.ok (t, db') →
      resolveOrCreate db' o n = Except.ok (t, db')) ∧
    (∀ db o n t db', keyCount db o n ≤ 1 →
      resolveOrCreate db o n = Except.ok (t, db') → keyCount db' o n = 1) ∧
    (∀ db o p r db' n t, createRecipe db o p = Except.ok (r, db') →
      n ∈ p.tags.getD [] → findTag db o n = some t →
      t.id ∈ r.tagIds ∧ t ∈ db'.tags) ∧
    (∀ db o p r db', createRecipe db o p = Except.ok (r, db') →
      tagCount db' o = tagCount db o + newNameCount db o (p.tags.getD [])) := by
  refine ⟨fun db o n t db' h => resolveOrCreate_idem h,
    fun db o n t db' hle h => keyCount_after hle h, ?_, ?_⟩
  · intro db o p r db' n t h hn hf
    obtain ⟨ids, db1, hra, hr, rfl⟩ := createRecipe_inv h
    constructor
    · rw [hr]
      exact resolveAll_mem_ids hra hn hf
    · show t ∈ db1.tags
      exact resolveAll_tags_mono hra t (List.mem_of_find?_eq_some hf)
  · intro db o p r db' h
    obtain ⟨ids, db1, hra, -, rfl⟩ := createRecipe_inv h
    show tagCount db1 o = _
    exact resolveAll_tagCount hra

/-- Witness for C3 at the existing-tag creation test: user 1 already owns
Tag1; creating the curry recipe with nested Tag1 and Dinner attaches the
pre-existing Tag1 identity and adds exactly one new entity. -/
theorem C3_resolve_or_create_idempotent_witness :
    ((0 : Nat) ∈
      ({ id := 0, user := 1, title := "Thai Prawn Curry", timeMinutes := 30
       , price := 250, description := "", link := "", tagIds := [0, 1] }
        : Recipe).tagIds ∧
     ({ id := 0, user := 1, name := "Tag1" } : Tag) ∈
      ({ users := [1]
       , tags := [{ id := 0, user := 1, name := "Tag1" }
                , { id := 1, user := 1, name := "Dinner" }]
       , recipes := [{ id := 0, user := 1, title := "Thai Prawn Curry"
                     , timeMinutes := 30, price := 250, description := ""
                     , link := "", tagIds := [0, 1] }]
       , nextTagId := 2, nextRecipeId := 1 } : DB).tags) := by
  exact C3_resolve_or_create_idempotent.2.2.1
    { users := [1], tags := [{ id := 0, user := 1, name := "Tag1" }]
    , recipes := [], nextTagId := 1, nextRecipeId := 0 } 1
    { title := "Thai Prawn Curry", timeMinutes := 30, price := 250
    , description := none, link := none, tags := some ["Tag1", "Dinner"] }
    { id := 0, user := 1, title := "Thai Prawn Curry", timeMinutes := 30
    , price := 250, description := "", link := "", tagIds := [0, 1] }
    { users := [1]
    , tags := [{ id := 0, user := 1, name := "Tag1" }
             , { id := 1, user := 1, name := "Dinner" }]
    , recipes := [{ id := 0, user := 1, title := "Thai Prawn Curry"
                  , timeMinutes := 30, price := 250, description := ""
                  , link := "", tagIds := [0, 1] }]
    , nextTagId := 2, nextRecipeId := 1 }
    "Tag1" { id := 0, user := 1, name := "Tag1" }
    (by decide) (by decide) (by decide)

/-- C1: for a recipe owned by the caller, a merge update with the tags key
absent leaves the association set unchanged; with an empty list it clears
the set; and with a single name it makes the set exactly the entity
resolved for that (owner, name), reusing a pre-existing entity without
creating a duplicate and detaching every other tag. -/
theorem C1_patch_tags_semantics :
    ∀ db u rid (p : PatchPayload) r,
      findOwnedRecipe db u rid = some r →
      ((p.tags = none → ∀ r1 db',
          patchRecipe db u rid p = Except.ok (r1, db') →
          r1.tagIds = r.tagIds ∧ db'.tags = db.tags ∧
          recipeById db' rid = some r1) ∧
       (p.tags = some [] → ∀ r1 db',
          patchRecipe db u rid p = Except.ok (r1, db') →
          r1.tagIds = [] ∧ db'.tags = db.tags ∧
          recipeById db' rid = some r1) ∧
       (∀ x, p.tags = some [x] → ∀ r1 db',
          patchRecipe db u rid p = Except.ok (r1, db') →
          (∀ t, findTag db u x = some t →
            r1.tagIds = [t.id] ∧ db'.tags = db.tags ∧
            recipeById db' rid = some r1) ∧
          (findTag db u x = none →
            r1.tagIds = [db.nextTagId] ∧
            db'.tags = db.tags ++ [{ id := db.nextTagId, user := u, name := x }] ∧
            recipeById db' rid = some r1))) := by
  intro db u rid p r hfound
  refine ⟨?_, ?_, ?_⟩
  · intro habs r1 db' h
    have hstored := (patchRecipe_stored h).2.2
    obtain ⟨r0, hfound0, hcase⟩ := patchRecipe_inv h
    rw [hfound] at hfound0
    cases Option.some.inj hfound0
    rcases hcase with ⟨-, hr1, rfl⟩ | ⟨names, ids, db1, hsome, -, -, -⟩
    · exact ⟨by rw [hr1]; rfl, rfl, hstored⟩
    · rw [habs] at hsome
      cases hsome
  · intro hemp r1 db' h
    have hstored := (patchRecipe_stored h).2.2
    obtain ⟨r0, hfound0, hcase⟩ := patchRecipe_inv h
    rw [hfound] at hfound0
    cases Option.some.inj hfound0
    rcases hcase with ⟨hnone, -, -⟩ | ⟨names, ids, db1, hsome, hra, hr1, rfl⟩
    · rw [hemp] at hnone
      cases hnone
    · rw [hemp] at hsome
      cases Option.some.inj hsome
      obtain ⟨rfl, rfl⟩ := resolveAll_nil_inv hra
      exact ⟨by rw [hr1]; rfl, rfl, hstored⟩
  · intro x hone r1 db' h
    have hstored := (patchRecipe_stored h).2.2
    obtain ⟨r0, hfound0, hcase⟩ := patchRecipe_inv h
    rw [hfound] at hfound0
    cases Option.some.inj hfound0
    rcases hcase with ⟨hnone, -, -⟩ | ⟨names, ids, db1, hsome, hra, hr1, rfl⟩
    · rw [hone] at hnone
      cases hnone
    · rw [hone] at hsome
      cases Option.some.inj hsome
      obtain ⟨t0, hro, rfl⟩ := resolveAll_singleton hra
      constructor
      · intro t hf
        have hv := (resolveOrCreate_spec hro).1
        have : resolveOrCreate db u x = Except.ok (t, db) := by
          unfold resolveOrCreate
          rw [if_pos hv, hf]
        rw [this] at hro
        simp only [Except.ok.injEq, Prod.mk.injEq] at hro
        obtain ⟨rfl, rfl⟩ := hro
        exact ⟨by rw [hr1]; rfl, rfl, hstored⟩
      · intro hf
        rcases (resolveOrCreate_spec hro).2 with ⟨hsome2, -⟩ | ⟨-, ht0, rfl⟩
        · rw [hf] at hsome2
          cases hsome2
        · refine ⟨by rw [hr1, ht0]; rfl, by rw [ht0]; rfl, hstored⟩

/-- Witness for C1 at the clear-tags test: patching the sample recipe of
user 1 with an empty tags list clears its association set while the tag
table is untouched and the cleared row is stored. -/
theorem C1_patch_tags_semantics_witness :
    ({ id := 0, user := 1, title := "Sample", timeMinutes := 5, price := 525
     , description := "", link := "", tagIds := [] } : Recipe).tagIds = [] ∧
    ({ users := [1], tags := [{ id := 0, user := 1, name := "Dessert" }]
     , recipes := [{ id := 0, user := 1, title := "Sample", timeMinutes := 5
                   , price := 525, description := "", link := ""
                   , tagIds := [] }]
     , nextTagId := 1, nextRecipeId := 1 } : DB).tags =
      ({ users := [1], tags := [{ id := 0, user := 1, name := "Dessert" }]
       , recipes := [{ id := 0, user := 1, title := "Sample", timeMinutes := 5
                     , price := 525, description := "", link := ""
                     , tagIds := [0] }]
       , nextTagId := 1, nextRecipeId := 1 } : DB).tags ∧
    recipeById
      { users := [1], tags := [{ id := 0, user := 1, name := "Dessert" }]
      , recipes := [{ id := 0, user := 1, title := "Sample", timeMinutes := 5
                    , price := 525, description := "", link := ""
                    , tagIds := [] }]
      , nextTagId := 1, nextRecipeId := 1 } 0 =
      some { id := 0, user := 1, title := "Sample", timeMinutes := 5
           , price := 525, description := "", link := "", tagIds := [] } := by
  exact (C1_patch_tags_semantics
    { users := [1], tags := [{ id := 0, user := 1, name := "Dessert" }]
    , recipes := [{ id := 0, user := 1, title := "Sample", timeMinutes := 5
                  , price := 525, description := "", link := ""
                  , tagIds := [0] }]
    , nextTagId := 1, nextRecipeId := 1 } 1 0
    { title := none, timeMinutes := none, price := none, description := none
    , link := none, userField := none, tags := some [] }
    { id := 0, user := 1, title := "Sample", timeMinutes := 5, price := 525
    , description := "", link := "", tagIds := [0] }
    (by decide)).2.1 rfl
    { id := 0, user := 1, title := "Sample", timeMinutes := 5, price := 525
    , description := "", link := "", tagIds := [] }
    { users := [1], tags := [{ id := 0, user := 1, name := "Dessert" }]
    , recipes := [{ id := 0, user := 1, title := "Sample", timeMinutes := 5
                  , price := 525, description := "", link := ""
                  , tagIds := [] }]
    , nextTagId := 1, nextRecipeId := 1 }
    (by decide)

/-- C4: a detail, update or delete request for a recipe of user u issued by
a different user v yields notFound, never forbidden, and since errors
commit nothing the stored state is unchanged. The id-uniqueness hypothesis
reflects the primary key on the id column. -/
theorem C4_cross_owner_not_found :
    ∀ db (v u rid : Nat) (r : Recipe) (p : PatchPayload),
      r ∈ db.recipes → r.id = rid → r.user = u → v ≠ u →
      (∀ r2 ∈ db.recipes, r2.id = rid → r2 = r) →
      getRecipeDetail db v rid = Except.error ApiError.notFound ∧
      patchRecipe db v rid p = Except.error ApiError.notFound ∧
      deleteRecipe db v rid = Except.error ApiError.notFound := by
  intro db v u rid r p hr hid hu hvu huniq
  have hnone : findOwnedRecipe db v rid = none := by
    unfold findOwnedRecipe
    rw [List.find?_eq_none]
    intro x hx hpx
    simp only [Bool.and_eq_true, beq_iff_eq] at hpx
    have hxr : x = r := huniq x hx hpx.2
    rw [hxr] at hpx
    rw [hu] at hpx
    exact hvu hpx.1.symm
  refine ⟨?_, ?_, ?_⟩
  · unfold getRecipeDetail
    rw [hnone]
  · unfold patchRecipe
    rw [hnone]
  · unfold deleteRecipe
    rw [hnone]

/-- Witness for C4: user 2 requesting the recipe of user 1 gets notFound on
detail, update and delete. -/
theorem C4_cross_owner_not_found_witness :
    getRecipeDetail
      { users := [2, 1]
      , tags := []
      , recipes := [{ id := 0, user := 1, title := "Sample", timeMinutes := 5
                    , price := 525, description := "", link := "", tagIds := [] }]
      , nextTagId := 0, nextRecipeId := 1 } 2 0 =
      Except.error ApiError.notFound ∧
    patchRecipe
      { users := [2, 1]
      , tags := []
      , recipes := [{ id := 0, user := 1, title := "Sample", timeMinutes := 5
                    , price := 525, description := "", link := "", tagIds := [] }]
      , nextTagId := 0, nextRecipeId := 1 } 2 0
      { title := some "hacked", timeMinutes := none, price := none
      , description := none, link := none, userField := none, tags := none } =
      Except.error ApiError.notFound ∧
    deleteRecipe
      { users := [2, 1]
      , tags := []
      , recipes := [{ id := 0, user := 1, title := "Sample", timeMinutes := 5
                    , price := 525, description := "", link := "", tagIds := [] }]
      , nextTagId := 0, nextRecipeId := 1 } 2 0 =
      Except.error ApiError.notFound := by
  exact C4_cross_owner_not_found
    { users := [2, 1]
    , tags := []
    , recipes := [{ id := 0, user := 1, title := "Sample", timeMinutes := 5
                  , price := 525, description := "", link := "", tagIds := [] }]
    , nextTagId := 0, nextRecipeId := 1 } 2 1 0
    { id := 0, user := 1, title := "Sample", timeMinutes := 5
    , price := 525, description := "", link := "", tagIds := [] }
    { title := some "hacked", timeMinutes := none, price := none
    , description := none, link := none, userField := none, tags := none }
    (by decide) rfl rfl (by decide) (by decide)

/-- C5: a merge update by the owner whose payload carries a user key, even
one naming a different user, leaves the stored owner unchanged: the update
surface ignores the owner field of the payload. -/
theorem C5_owner_immutable :
    ∀ db u rid (p : PatchPayload) (w : Nat) r r1 db',
      findOwnedRecipe db u rid = some r →
      p.userField = some w →
      patchRecipe db u rid p = Except.ok (r1, db') →
      r1.user = u ∧ recipeById db' rid = some r1 := by
  intro db u rid p w r r1 db' hfound huf h
  exact ⟨(patchRecipe_stored h).2.1, (patchRecipe_stored h).2.2⟩

/-- Witness for C5 at the reassign-user test: user 1 patches their recipe
with a payload naming user 2 as owner; the stored row keeps owner 1. -/
theorem C5_owner_immutable_witness :
    ({ id := 0, user := 1, title := "Sample", timeMinutes := 5, price := 525
     , description := "", link := "", tagIds := [] } : Recipe).user = 1 ∧
    recipeById
      { users := [2, 1]
      , tags := []
      , recipes := [{ id := 0, user := 1, title := "Sample", timeMinutes := 5
                    , price := 525, description := "", link := "", tagIds := [] }]
      , nextTagId := 0, nextRecipeId := 1 } 0 =
      some { id := 0, user := 1, title := "Sample", timeMinutes := 5
           , price := 525, description := "", link := "", tagIds := [] } := by
  exact C5_owner_immutable
    { users := [2, 1]
    , tags := []
    , recipes := [{ id := 0, user := 1, title := "Sample", timeMinutes := 5
                  , price := 525, description := "", link := "", tagIds := [] }]
    , nextTagId := 0, nextRecipeId := 1 } 1 0
    { title := none, timeMinutes := none, price := none, description := none
    , link := none, userField := some 2, tags := none } 2
    { id := 0, user := 1, title := "Sample", timeMinutes := 5, price := 525
    , description := "", link := "", tagIds := [] }
    { id := 0, user := 1, title := "Sample", timeMinutes := 5, price := 525
    , description := "", link := "", tagIds := [] }
    { users := [2, 1]
    , tags := []
    , recipes := [{ id := 0, user := 1, title := "Sample", timeMinutes := 5
                  , price := 525, description := "", link := "", tagIds := [] }]
    , nextTagId := 0, nextRecipeId := 1 }
    (by decide) rfl (by decide)

/-- C7: the assignedOnly listing returns exactly the tags of the owner
referenced by at least one of the owner recipes, excluding unreferenced
ones, and returns each such tag exactly once even when several recipes
reference it. The id-uniqueness hypothesis reflects the primary key on the
tag id column. -/
theorem C7_assigned_only_distinct :
    ∀ db (o : Nat), ((db.tags.map (fun t => t.id)).Nodup) →
      (∀ t : Tag, t ∈ listForOwnerAssigned db o ↔
        (t ∈ db.tags ∧ t.user = o ∧
         ∃ r ∈ db.recipes, r.user = o ∧ t.id ∈ r.tagIds)) ∧
      (∀ t ∈ listForOwnerAssigned db o, (listForOwnerAssigned db o).count t = 1) := by
  intro db o hids
  have hinj : ∀ a ∈ assignedTagsJoin db o, ∀ b ∈ assignedTagsJoin db o,
      a.id = b.id → a = b := by
    intro a ha b hb hab
    exact List.inj_on_of_nodup_map hids
      (mem_assignedTagsJoin.mp ha).1 (mem_assignedTagsJoin.mp hb).1 hab
  constructor
  · intro t
    constructor
    · intro ht
      exact mem_assignedTagsJoin.mp (mem_of_mem_dedupById ht)
    · intro hchar
      exact mem_dedupById hinj (mem_assignedTagsJoin.mpr hchar)
  · intro t ht
    have hnodup : (listForOwnerAssigned db o).Nodup :=
      List.Nodup.of_map _ (dedupById_ids_nodup (assignedTagsJoin db o))
    exact List.count_eq_one_of_mem hnodup ht

/-- Witness for C7 at the unique-filter test: Tag1 is referenced by both
recipes of user 1 yet listed exactly once. -/
theorem C7_assigned_only_distinct_witness :
    (listForOwnerAssigned
      { users := [1]
      , tags := [{ id := 0, user := 1, name := "Tag1" }
               , { id := 1, user := 1, name := "Tag2" }]
      , recipes := [{ id := 0, user := 1, title := "Sample recipe1"
                    , timeMinutes := 5, price := 550, description := ""
                    , link := "", tagIds := [0] }
                  , { id := 1, user := 1, title := "Sample recipe2"
                    , timeMinutes := 5, price := 550, description := ""
                    , link := "", tagIds := [0] }]
      , nextTagId := 2, nextRecipeId := 2 } 1).count
      { id := 0, user := 1, name := "Tag1" } = 1 := by
  exact (C7_assigned_only_distinct
    { users := [1]
    , tags := [{ id := 0, user := 1, name := "Tag1" }
             , { id := 1, user := 1, name := "Tag2" }]
    , recipes := [{ id := 0, user := 1, title := "Sample recipe1"
                  , timeMinutes := 5, price := 550, description := ""
                  , link := "", tagIds := [0] }
                , { id := 1, user := 1, title := "Sample recipe2"
                  , timeMinutes := 5, price := 550, description := ""
                  , link := "", tagIds := [0] }]
    , nextTagId := 2, nextRecipeId := 2 } 1 (by decide)).2
    { id := 0, user := 1, name := "Tag1" } (by decide)

end RecipeApp
